import Mathlib

/-!
Verification development for the monocle query/aggregation engine
(`src/monocle/db/queries.py`), shallow-embedded in Lean.

Conventions of the embedding:
* Python dictionaries of query parameters become the `Params` structure;
  a missing key is `none`.  (A key explicitly bound to `None` behaves like
  a missing key everywhere the claims touch, so the two are identified.)
* Python truthiness is modeled per type (`0`, `""`, `[]`, `None`, `False`
  are falsy).
* Timestamps are whole seconds (the source parses `"%Y-%m-%dT%H:%M:%SZ"`)
  or epoch-millis integers for the window bounds.
* A Python exception escaping a function is modeled by the function
  returning `none` (each definition's doc comment says which exception).
* Numeric post-processing (`/`, `round`, `statistics.mean`, `median`) is
  modeled exactly over `ℚ`; the concrete inputs evaluated in the theorems
  below produce values on which IEEE double arithmetic agrees with the
  exact computation.
-/

namespace Monocle

/-- Value of the `etype` parameter: the callers of `generate_filter` pass
either a single string or a collection (tuple/list) of event-type strings,
mirroring the dynamic typing of the Python parameter dictionary. -/
inductive EtypeVal where
  | str (s : String)
  | coll (l : List String)
  deriving DecidableEq, Repr

/-- The query-parameter record consumed by `generate_filter`,
`generate_must_not` and `set_params_defaults` (a Python dict in the
source); `none` is a missing key. -/
structure Params where
  gte : Option Int := none
  lte : Option Int := none
  on_cc_gte : Option Int := none
  on_cc_lte : Option Int := none
  ec_same_date : Option Bool := none
  etype : Option EtypeVal := none
  author : Option String := none
  approval : Option String := none
  state : Option String := none
  interval : Option String := none
  size : Option Nat := none
  exclude_authors : Option (List String) := none
  fields : Option (List String) := none
  deriving DecidableEq, Repr

/-- One clause of an Elasticsearch boolean query, restricted to the four
shapes `generate_filter`/`generate_must_not` build.  In a `range` clause
the outer `Option` of `gte`/`lte` records whether the key is present in
the range dictionary at all, and the inner `Option` is the value stored
under it (`none` = Python `None`). -/
inductive Clause where
  | regexp (field : String) (value : String)
  | range (field : String) (fmt : String)
      (gte : Option (Option Int)) (lte : Option (Option Int))
  | terms (field : String) (values : List String)
  | term (field : String) (value : String)
  deriving DecidableEq, Repr

/-- Python truthiness of an optional integer (`None` and `0` are falsy). -/
def truthyInt : Option Int → Bool
  | none => false
  | some v => v != 0

/-- Python truthiness of an optional boolean (`None` and `False` are falsy). -/
def truthyBool : Option Bool → Bool
  | none => false
  | some b => b

/-- Python truthiness of a string list (`[]` is falsy). -/
def truthyStrList : List String → Bool
  | [] => false
  | _ :: _ => true

/-- The optional `terms`-on-`type` clause appended by `generate_filter`
(lines 71-72): present only when the (already converted) `etype` list is
truthy. -/
def etypeClauses (o : Option (List String)) : List Clause :=
  match o with
  | some vs => if truthyStrList vs then [Clause.terms "type" vs] else []
  | none => []

/-- An optional exact-match `term` clause appended by `generate_filter`
(lines 73-78): present only when the parameter is a truthy string. -/
def termClauses (fld : String) (o : Option String) : List Clause :=
  match o with
  | some a => if a.isEmpty then [] else [Clause.term fld a]
  | none => []

/-- Shallow embedding of `generate_filter` (src/monocle/db/queries.py,
lines 29-79).  `list(etype)` applied to a string yields the list of its
one-character substrings, exactly as in Python.  The `created_at` and
`on_created_at` range clauses are always present; each records which of
its `gte`/`lte` keys were inserted and with which (possibly `None`)
values. -/
def generate_filter (repository_fullname : String) (params : Params) :
    List Clause :=
  let gte := params.gte
  let lte := params.lte
  let etype : Option (List String) :=
    match params.etype with
    | some (EtypeVal.str s) => some (s.data.map fun c => String.singleton c)
    | some (EtypeVal.coll l) => some l
    | none => none
  let carGte : Option (Option Int) := if truthyInt gte then some gte else none
  let carLte : Option (Option Int) := if truthyInt lte then some lte else none
  let on_cc_gte := if truthyBool params.ec_same_date then gte else params.on_cc_gte
  let on_cc_lte := if truthyBool params.ec_same_date then lte else params.on_cc_lte
  let ocarGte : Option (Option Int) :=
    if truthyInt on_cc_gte || truthyBool params.ec_same_date then some on_cc_gte
    else none
  let ocarLte : Option (Option Int) :=
    if truthyInt on_cc_lte || truthyBool params.ec_same_date then some on_cc_lte
    else none
  [Clause.regexp "repository_fullname" repository_fullname,
   Clause.range "created_at" "epoch_millis" carGte carLte,
   Clause.range "on_created_at" "epoch_millis" ocarGte ocarLte]
  ++ etypeClauses etype
  ++ termClauses "author" params.author
  ++ termClauses "state" params.state
  ++ termClauses "approval" params.approval

/-- Shallow embedding of `generate_must_not` (lines 82-100).  The source
accesses `params['exclude_authors']` directly; every caller normalizes
first, so the key is always present (we read it with default `[]`). -/
def generate_must_not (params : Params) (exclude_change : Bool) : List Clause :=
  (if truthyStrList (params.exclude_authors.getD [])
   then [Clause.terms "author" (params.exclude_authors.getD [])]
   else [])
  ++ (if exclude_change then [Clause.term "type" "Change"] else [])

/-- Shallow embedding of `set_params_defaults` (lines 103-117).  The
source builds a fresh dictionary enumerating exactly the keys it keeps;
`state` and `field` are not among them, so the returned record never
carries them. -/
def set_params_defaults (params : Params) : Params :=
  { gte := params.gte,
    lte := params.lte,
    on_cc_gte := params.on_cc_gte,
    on_cc_lte := params.on_cc_lte,
    ec_same_date := params.ec_same_date,
    etype := params.etype,
    author := params.author,
    interval := some (params.interval.getD "3h"),
    size := some (params.size.getD 10),
    exclude_authors := some (params.exclude_authors.getD []),
    approval := params.approval,
    state := none,
    fields := none }

/-- The boolean query body shared by the metric functions: positive
filter clauses and negative must-not clauses. -/
structure QueryBody where
  filter : List Clause
  must_not : List Clause
  deriving DecidableEq, Repr

/-- The query body built by `count_events` (lines 147-156): parameters are
normalized by `set_params_defaults` first, then the filter and the
must-not clauses are generated from the normalized record. -/
def count_events_body (repository_fullname : String) (params : Params) :
    QueryBody :=
  let params := set_params_defaults params
  { filter := generate_filter repository_fullname params,
    must_not := generate_must_not params true }

/-- `count_events` (lines 147-163) over an abstract backend.
`Except.error` models `es.count` raising; the source catches any
exception and returns an empty dictionary instead of a count, rendered
here as `none`; on success it returns `res['count']`. -/
def count_events (backend : QueryBody → Except Unit Nat)
    (repository_fullname : String) (params : Params) : Option Nat :=
  match backend (count_events_body repository_fullname params) with
  | Except.error _ => none
  | Except.ok n => some n

/-- Claim C4: the spec says a single event-type string in `etype` yields a
`terms` predicate whose set is exactly the one-element set containing that
type.  The code runs `etype = list(etype)` on a string, which splits it
into its characters: the built filter carries the nineteen one-character
strings of `"ChangeReviewedEvent"`, not the one-element set. -/
theorem C4_etype_string_splits_into_characters :
    Clause.terms "type" ["ChangeReviewedEvent"]
        ∉ generate_filter "org/repo"
            { etype := some (EtypeVal.str "ChangeReviewedEvent") } ∧
    Clause.terms "type"
        ["C", "h", "a", "n", "g", "e", "R", "e", "v", "i", "e", "w", "e",
         "d", "E", "v", "e", "n", "t"]
        ∈ generate_filter "org/repo"
            { etype := some (EtypeVal.str "ChangeReviewedEvent") } := by
  decide

/-- Claim C5: the spec says normalization preserves every recognized
supplied parameter, so `count_events` invoked with a `state` parameter
should build a filter containing the exact-match `state` predicate.  The
code's `set_params_defaults` does not copy `state` into the record it
returns, so the query body `count_events` builds with `state` supplied is
identical to the body built with no parameters at all, and the `state`
term is absent — while `generate_filter` itself, fed the un-normalized
record, would have produced it. -/
theorem C5_state_dropped_by_normalization :
    count_events_body "org/repo" { state := some "MERGED" }
        = count_events_body "org/repo" {} ∧
    Clause.term "state" "MERGED"
        ∉ (count_events_body "org/repo" { state := some "MERGED" }).filter ∧
    Clause.term "state" "MERGED"
        ∈ generate_filter "org/repo" { state := some "MERGED" } := by
  decide

/-- Claim C6, counterexample: with `ec_same_date` truthy and neither `gte`
nor `lte` supplied, the built `on_created_at` range predicate carries both
a `gte` and an `lte` key (holding Python `None`), although neither bound
was supplied — the claim says an absent bound is absent from the built
predicate. -/
theorem C6_counterexample_ec_same_date_emits_absent_bounds :
    Clause.range "on_created_at" "epoch_millis" (some none) (some none)
        ∈ generate_filter "org/repo" { ec_same_date := some true } := by
  decide

/-- The amended per-clause bound discipline of `generate_filter`: the
`created_at` range carries a `gte`/`lte` key only when the corresponding
parameter is truthy, and likewise for `on_created_at` when `ec_same_date`
is falsy; but when `ec_same_date` is truthy the `on_created_at` range
always carries both keys, holding the values of `gte`/`lte` (Python
`None` when absent).  Non-range clauses are unconstrained. -/
def rangeBoundsOk (p : Params) : Clause → Bool
  | Clause.range fld _ g l =>
    if fld = "created_at" then
      (!g.isSome || truthyInt p.gte) && (!l.isSome || truthyInt p.lte)
    else if fld = "on_created_at" then
      if truthyBool p.ec_same_date then
        decide (g = some p.gte) && decide (l = some p.lte)
      else
        (!g.isSome || truthyInt p.on_cc_gte) && (!l.isSome || truthyInt p.on_cc_lte)
    else true
  | _ => true

theorem rangeBoundsOk_of_mem_etypeClauses (p : Params) (o : Option (List String))
    (c : Clause) (h : c ∈ etypeClauses o) : rangeBoundsOk p c = true := by
  cases o with
  | none => simp [etypeClauses] at h
  | some vs =>
    simp only [etypeClauses] at h
    split at h
    · simp only [List.mem_singleton] at h
      subst h
      rfl
    · simp at h

theorem rangeBoundsOk_of_mem_termClauses (p : Params) (fld : String)
    (o : Option String) (c : Clause) (h : c ∈ termClauses fld o) :
    rangeBoundsOk p c = true := by
  cases o with
  | none => simp [termClauses] at h
  | some a =>
    simp only [termClauses] at h
    split at h
    · simp at h
    · simp only [List.mem_singleton] at h
      subst h
      rfl

/-- Claim C6, amended: the `created_at` range predicate never carries a
bound that was not supplied, and the same holds for `on_created_at`
whenever `ec_same_date` is falsy; but when `ec_same_date` is truthy the
`on_created_at` range predicate always carries both `gte` and `lte` keys,
copied from `gte`/`lte`, so an absent bound then appears as a key holding
Python `None` rather than being omitted. -/
theorem C6_amended_range_bounds (repo : String) (p : Params) (c : Clause)
    (hc : c ∈ generate_filter repo p) : rangeBoundsOk p c = true := by
  simp only [generate_filter, List.mem_append, List.mem_cons, List.not_mem_nil,
    or_false] at hc
  rcases hc with ((((h | h | h) | h) | h) | h) | h
  · subst h; rfl
  · subst h
    by_cases h1 : truthyInt p.gte <;> by_cases h2 : truthyInt p.lte <;>
      simp [rangeBoundsOk, h1, h2]
  · subst h
    by_cases hec : truthyBool p.ec_same_date
    · simp [rangeBoundsOk, hec]
    · by_cases h1 : truthyInt p.on_cc_gte <;> by_cases h2 : truthyInt p.on_cc_lte <;>
        simp [rangeBoundsOk, hec, h1, h2]
  · exact rangeBoundsOk_of_mem_etypeClauses p _ c h
  · exact rangeBoundsOk_of_mem_termClauses p _ _ c h
  · exact rangeBoundsOk_of_mem_termClauses p _ _ c h
  · exact rangeBoundsOk_of_mem_termClauses p _ _ c h

/-- Result of `run_query` (lines 120-127): on any exception from
`es.search` the source returns the empty *list* `[]`; on success it
returns the parsed response dictionary, abstracted as a value of `α`. -/
inductive RunQueryResult (α : Type) where
  | emptyList
  | resp (r : α)
  deriving DecidableEq, Repr

/-- Shallow embedding of `run_query` (lines 120-127) over an abstract
backend: `Except.error` models `es.search` raising. -/
def run_query {α : Type} (search : Except Unit α) : RunQueryResult α :=
  match search with
  | Except.error _ => RunQueryResult.emptyList
  | Except.ok r => RunQueryResult.resp r

/-- `count_authors` (lines 166-186) after the query: the successful search
response carries `res['aggregations']['agg1']['value']`, the cardinality
estimate.  When `run_query` returns the empty list, the subscript
`data['aggregations']` raises `TypeError` (a list cannot be indexed by a
string), modeled as `none`. -/
def count_authors (search : Except Unit Nat) : Option Nat :=
  match run_query search with
  | RunQueryResult.emptyList => none
  | RunQueryResult.resp v => some v

/-- `events_histo` (lines 189-216) after the query: the successful search
response carries the histogram buckets (timestamp key, doc count) and the
`avg_count` value (`none` when the backend reports `null`).  When
`run_query` returns the empty list, `data['aggregations']` raises
`TypeError`, modeled as `none`. -/
def events_histo (search : Except Unit (List (Int × Nat) × Option ℚ)) :
    Option (List (Int × Nat) × Option ℚ) :=
  match run_query search with
  | RunQueryResult.emptyList => none
  | RunQueryResult.resp r => some r

/-- Claim C1: the spec says a backend error is converted at `run_query`
into a default no-data result and every metric function still returns a
value.  The conversion does happen — `run_query` yields `[]` — but `[]`
is not shaped like a search response: `count_authors` and `events_histo`
then evaluate `data['aggregations']` on a list, which raises `TypeError`
past the metric boundary (modeled as `none`). -/
theorem C1_backend_error_raises_past_metric_boundary :
    run_query (α := Nat) (Except.error ()) = RunQueryResult.emptyList ∧
    count_authors (Except.error ()) = none ∧
    events_histo (Except.error ()) = none := by
  exact ⟨rfl, rfl, rfl⟩

/-- Python `round(x, 1)` modeled exactly over `ℚ`: scale by ten, round
half to even, scale back. -/
def roundHalfEven (q : ℚ) : ℤ :=
  let f := ⌊q⌋
  if q - f < 1 / 2 then f
  else if q - f > 1 / 2 then f + 1
  else if f % 2 = 0 then f else f + 1

/-- Python `round(x, 1)` on an exact rational. -/
def pyRound1 (q : ℚ) : ℚ := (roundHalfEven (q * 10) : ℚ) / 10

/-- `changes_closed_ratios` (lines 407-421) once the three `count_events`
calls have returned the counts of `ChangeCreatedEvent`,
`ChangeMergedEvent` and `ChangeAbandonedEvent`.  The source computes
`merged/created*100` first and then `abandoned/merged*100` — the key it
stores the second ratio under is named `abandoned/created_ratio`, but its
denominator is the merged count.  A zero denominator raises
`ZeroDivisionError`, modeled as `none`, with the created-count division
evaluated first. -/
def changes_closed_ratios (created merged abandoned : Nat) : Option (ℚ × ℚ) :=
  if created = 0 then none
  else
    let mergedCreatedRatio := pyRound1 ((merged : ℚ) / (created : ℚ) * 100)
    if merged = 0 then none
    else some (mergedCreatedRatio, pyRound1 ((abandoned : ℚ) / (merged : ℚ) * 100))

/-- Claim C2, counterexample: on created=100, merged=40, abandoned=10 the
value stored under `abandoned/created_ratio` *is* `abandoned/merged*100`,
namely 25.0 — the claim says it does not equal 25.0 on this input. -/
theorem C2_counterexample_abandoned_ratio_is_25 :
    (changes_closed_ratios 100 40 10).map Prod.snd = some (25 : ℚ) := by
  unfold changes_closed_ratios
  norm_num [pyRound1, roundHalfEven]

/-- Claim C2, amended: on created=100, merged=40, abandoned=10 the result
carries `merged/created_ratio = 40.0` and an `abandoned/created_ratio`
computed as `abandoned/merged*100`, i.e. 25.0 on this input. -/
theorem C2_closed_ratios_on_100_40_10 :
    changes_closed_ratios 100 40 10 = some ((40 : ℚ), (25 : ℚ)) := by
  unfold changes_closed_ratios
  norm_num [pyRound1, roundHalfEven]

/-- Claim C3: `changes_closed_ratios` raises (returns no value) whenever a
ratio denominator is zero — when the `ChangeCreatedEvent` count is 0 or
when the `ChangeMergedEvent` count is 0. -/
theorem C3_zero_denominator_raises (created merged abandoned : Nat)
    (h : created = 0 ∨ merged = 0) :
    changes_closed_ratios created merged abandoned = none := by
  rcases h with h | h
  · simp [changes_closed_ratios, h]
  · by_cases hc : created = 0 <;> simp [changes_closed_ratios, h, hc]

/-- Claim C3, witness: the theorem applied at created=0, merged=40,
abandoned=10. -/
theorem C3_zero_denominator_raises_witness :
    ((0 : Nat) = 0 ∨ (40 : Nat) = 0) ∧ changes_closed_ratios 0 40 10 = none :=
  ⟨Or.inl rfl, C3_zero_denominator_raises 0 40 10 (Or.inl rfl)⟩

/-- The four duration ranges issued by `change_merged_count_by_duration`
(lines 324-344), transcribed from the aggregation body as
(`from`, `to`) pairs in seconds; a missing key is `none`. -/
def duration_ranges : List (Option Nat × Option Nat) :=
  [(none, some (24 * 3600)),
   (some (24 * 3600 + 1), some (7 * 24 * 3600)),
   (some (7 * 24 * 3600 + 1), some (31 * 24 * 3600)),
   (some (31 * 24 * 3600 + 1), none)]

/-- Membership of a duration value in one aggregation range under the
backend's range-aggregation semantics: `from` inclusive, `to` exclusive;
a missing bound is unbounded. -/
def inDurationRange (v : Nat) (r : Option Nat × Option Nat) : Bool :=
  (match r.1 with
   | none => true
   | some f => decide (f ≤ v)) &&
  (match r.2 with
   | none => true
   | some t => decide (v < t))

/-- Claim C7: the spec says the four ranges jointly cover `[0, ∞)`, with
duration 86400 in the first bucket and 86401 in the second.  Because the
source pairs an exclusive `to` with `from := to + 1`, durations 86400,
604800 and 2678400 fall in no bucket at all; 86401 does land in the
second bucket. -/
theorem C7_gap_at_bucket_boundaries :
    duration_ranges.countP (inDurationRange 86400) = 0 ∧
    duration_ranges.countP (inDurationRange 86401) = 1 ∧
    duration_ranges.countP (inDurationRange 604800) = 0 ∧
    duration_ranges.countP (inDurationRange 2678400) = 0 := by
  decide

/-- The per-ranking term bucket of a `terms` aggregation response:
a field value and its document count. -/
structure TopBucket where
  key : String
  doc_count : Nat
  deriving DecidableEq, Repr

/-- The record `_events_top` returns on success. -/
structure TopTermsResult where
  buckets : List TopBucket
  count_avg : ℚ
  count_median : ℚ
  deriving DecidableEq, Repr

/-- `statistics.mean` over a list of integers, exact. -/
def pyMean (l : List Nat) : ℚ := (l.map (fun n => (n : ℚ))).sum / (l.length : ℚ)

/-- `statistics.median` over a list of integers: sort ascending, take the
middle element, or the mean of the two middle elements when the length is
even.  (The source passes an already sorted copy; the result is the
same.) -/
def pyMedian (l : List Nat) : ℚ :=
  let s := List.insertionSort (fun a b => a ≤ b) l
  let n := s.length
  if n % 2 = 1 then ((s.getD (n / 2) 0 : Nat) : ℚ)
  else (((s.getD (n / 2 - 1) 0 : Nat) : ℚ) + ((s.getD (n / 2) 0 : Nat) : ℚ)) / 2

/-- `_events_top` (lines 219-251) over an abstract backend: the successful
search response carries the `agg1` term buckets.  On backend failure
`run_query` yields `[]` and `data['aggregations']` raises `TypeError`
(`none`); on success the bucket counts are post-processed, with mean and
median guarded to 0 when the bucket list is empty. -/
def _events_top (search : Except Unit (List TopBucket)) : Option TopTermsResult :=
  match run_query search with
  | RunQueryResult.emptyList => none
  | RunQueryResult.resp buckets =>
    let count_series := buckets.map (fun b => b.doc_count)
    some { buckets := buckets,
           count_avg := if count_series.isEmpty then 0 else pyMean count_series,
           count_median := if count_series.isEmpty then 0 else pyMedian count_series }

/-- Claim C10: when the term ranking returns zero buckets (and hence for
every specialization `events_top_authors`, `changes_top_approval`,
`changes_top_commented`, `changes_top_reviewed`, `authors_top_reviewed`,
`authors_top_commented`, which merely fix the field and the event type
before delegating), `_events_top` returns `count_avg = 0` and
`count_median = 0` instead of failing on the mean or median of an empty
series. -/
theorem C10_empty_buckets_yield_zero_stats :
    _events_top (Except.ok []) =
      some { buckets := [], count_avg := 0, count_median := 0 } := by
  decide

/-- One scanned event document as consumed by `_first_event_on_changes`
(lines 424-463): the grouping key, the event timestamp, the referenced
change's creation timestamp, and the event author.  Timestamps are whole
seconds since the epoch (the source parses `"%Y-%m-%dT%H:%M:%SZ"`). -/
structure ScanEvent where
  repository_fullname_and_number : String
  created_at : Nat
  on_created_at : Nat
  author : String
  deriving DecidableEq, Repr

/-- Group a list into maximal runs of adjacent events sharing the same
`repository_fullname_and_number`, as `itertools.groupby` does on the
sorted event list (lines 430-433). -/
def groupRuns (l : List ScanEvent) : List (List ScanEvent) :=
  l.foldr
    (fun e acc =>
      match acc with
      | [] => [[e]]
      | g :: gs =>
        match g with
        | [] => [e] :: gs
        | x :: _ =>
          if e.repository_fullname_and_number = x.repository_fullname_and_number
          then (e :: g) :: gs
          else [e] :: g :: gs)
    []

/-- The per-change accumulator dictionary (lines 434-438):
`change_created_at` starts as `None`, `first_event_created_at` starts as
`datetime.now()` (the `now` argument below), `first_event_author` and
`delta` start as `None`. -/
structure GroupState where
  change_created_at : Option Nat
  first_event_created_at : Nat
  first_event_author : Option String
  delta : Option Int
  deriving DecidableEq, Repr

/-- One iteration of the inner event loop (lines 439-450): set
`change_created_at` from the event's `on_created_at` if still unset, then,
if this event is earlier than the current minimum, record it together
with its author and the delta to the change creation time. -/
def stepEvent (st : GroupState) (e : ScanEvent) : GroupState :=
  let cca : Nat :=
    match st.change_created_at with
    | none => e.on_created_at
    | some x => x
  if e.created_at < st.first_event_created_at then
    { change_created_at := some cca,
      first_event_created_at := e.created_at,
      first_event_author := some e.author,
      delta := some ((e.created_at : Int) - (cca : Int)) }
  else
    { st with change_created_at := some cca }

/-- Fold one change group through the event loop starting from the
freshly initialized accumulator. -/
def groupFinal (now : Nat) (g : List ScanEvent) : GroupState :=
  g.foldl stepEvent
    { change_created_at := none, first_event_created_at := now,
      first_event_author := none, delta := none }

/-- `ret['top_authors'].setdefault(author, 0)` followed by `+= 1` on an
insertion-ordered association list (lines 456-457). -/
def bumpAuthor : List (String × Nat) → String → List (String × Nat)
  | [], a => [(a, 1)]
  | (b, n) :: rest, a =>
      if b = a then (b, n + 1) :: rest else (b, n) :: bumpAuthor rest a

/-- Shallow embedding of `_first_event_on_changes` (lines 424-463) with
the backend scan abstracted into the `events` argument and
`datetime.now()` into `now`.  The events are sorted by grouping key
(Python's `sorted` is stable, as is insertion sort with this reflexive
relation) and grouped into runs; each group is folded through the event
loop.  `pr_data['delta'].seconds` is the *sub-day seconds component* of
the timedelta, i.e. `delta mod 86400` with flooring division, not the
total elapsed seconds.  `none` models the `AttributeError` raised when a
group's delta is still `None`, or the `ZeroDivisionError` of
`int(0 / 0)` when there are no groups; `int(total / len)` on nonnegative
exact values is floor division. -/
def _first_event_on_changes (now : Nat) (events : List ScanEvent) :
    Option (Nat × List (String × Nat)) :=
  let sorted := List.insertionSort
    (fun a b => a.repository_fullname_and_number ≤ b.repository_fullname_and_number)
    events
  let gs := (groupRuns sorted).map (groupFinal now)
  match gs.mapM (fun st =>
      match st.delta, st.first_event_author with
      | some d, some a => some (d, a)
      | _, _ => none) with
  | none => none
  | some das =>
    if das.length = 0 then none
    else
      let total : Int := (das.map (fun p => p.1 % 86400)).sum
      let avg : Nat := total.toNat / das.length
      let tops := das.foldl (fun acc p => bumpAuthor acc p.2) []
      some (avg, (List.insertionSort (fun x y => y.2 ≤ x.2) tops).take 10)

/-- Claim C9: the spec says `first_event_delay_avg` is the truncated mean
of the elapsed time between change creation and the earliest qualifying
event.  The source sums `delta.seconds`, the sub-day component of the
timedelta: for a single change created at 1000 whose first comment
arrives at 87500 — one day and 100 seconds later, an elapsed time of
86500 seconds — the returned average is 100, not 86500.  The top-authors
part behaves as claimed and credits the first responder. -/
theorem C9_delay_avg_uses_subday_seconds_component :
    _first_event_on_changes 1000000
        [{ repository_fullname_and_number := "org/repo/1",
           created_at := 87500, on_created_at := 1000, author := "alice" }]
        = some (100, [("alice", 1)]) ∧
    (87500 : Int) - 1000 = 86500 := by
  constructor
  · rfl
  · decide

/-- `tuple(sorted((author, key)))` on two strings (line 310): the pair in
lexicographically sorted order. -/
def pairKey (a b : String) : String × String := if a ≤ b then (a, b) else (b, a)

/-- `peers_strength.setdefault(peers_id, 0)` followed by
`peers_strength[peers_id] += count` (lines 311-312) on an
insertion-ordered association list. -/
def bump : List ((String × String) × Nat) → (String × String) → Nat →
    List ((String × String) × Nat)
  | [], k, c => [(k, c)]
  | (q, n) :: rest, k, c =>
      if q = k then (q, n + c) :: rest else (q, n) :: bump rest k c

/-- The inner loop over one author's partner buckets (lines 305-312):
skip the self bucket, otherwise accumulate its count under the sorted
pair key. -/
def processAuthor (acc : List ((String × String) × Nat)) (author : String)
    (buckets : List (String × Nat)) : List ((String × String) × Nat) :=
  buckets.foldl
    (fun acc b => if b.1 = author then acc else bump acc (pairKey author b.1) b.2)
    acc

/-- The accumulated `peers_strength` dictionary (lines 302-312). -/
def peersStrengthMap (authors : List String)
    (rank : String → List (String × Nat)) : List ((String × String) × Nat) :=
  authors.foldl (fun acc a => processAuthor acc a (rank a)) []

/-- Shallow embedding of `peers_exchange_strength` (lines 297-317) with
the backend interactions abstracted: `authors` is the key list of the
top-author buckets fetched first, and `rank a` the (`on_author` key,
doc_count) bucket list fetched with `author` fixed to `a`.  The
accumulated dictionary items are sorted by descending strength (Python's
stable `sorted` with `reverse=True`, matched by insertion sort with this
reflexive relation). -/
def peers_exchange_strength (authors : List String)
    (rank : String → List (String × Nat)) : List ((String × String) × Nat) :=
  List.insertionSort (fun x y => y.2 ≤ x.2) (peersStrengthMap authors rank)

/-- The total count the partner ranking `buckets` reports for key `y`. -/
def bucketCount (buckets : List (String × Nat)) (y : String) : Nat :=
  ((buckets.filter fun b => b.1 = y).map fun b => b.2).sum

/-- The directional count x→y the algorithm queries: what `rank x`
reports for `y` when `x` is among the ranked authors, and 0 otherwise
(an author outside the top ranking is never queried). -/
def dirCount (authors : List String) (rank : String → List (String × Nat))
    (x y : String) : Nat :=
  if x ∈ authors then bucketCount (rank x) y else 0

/-- Total strength recorded under key `k` in an association list (sums
duplicates, though the algorithm never creates any). -/
def getCount (l : List ((String × String) × Nat)) (k : String × String) : Nat :=
  ((l.filter fun e => e.1 = k).map fun e => e.2).sum

/-- The contribution of one author's pass to the strength of key `k`. -/
def contrib (a : String) (buckets : List (String × Nat))
    (k : String × String) : Nat :=
  ((buckets.filter fun b => b.1 ≠ a ∧ pairKey a b.1 = k).map fun b => b.2).sum

/-- The total strength of key `k` contributed by all author passes. -/
def contribSum (authors : List String) (rank : String → List (String × Nat))
    (k : String × String) : Nat :=
  (authors.map fun a => contrib a (rank a) k).sum

/-- The key list of an association list. -/
def keys (l : List ((String × String) × Nat)) : List (String × String) :=
  l.map fun e => e.1

theorem getCount_nil (k : String × String) : getCount [] k = 0 := rfl

theorem getCount_cons (q : String × String) (n : Nat)
    (rest : List ((String × String) × Nat)) (k : String × String) :
    getCount ((q, n) :: rest) k = (if q = k then n else 0) + getCount rest k := by
  by_cases h : q = k <;> simp [getCount, h]

theorem bucketCount_cons (b : String × Nat) (rest : List (String × Nat))
    (y : String) :
    bucketCount (b :: rest) y
      = (if b.1 = y then b.2 else 0) + bucketCount rest y := by
  by_cases h : b.1 = y <;> simp [bucketCount, h]

theorem contrib_cons (a : String) (b : String × Nat) (rest : List (String × Nat))
    (k : String × String) :
    contrib a (b :: rest) k
      = (if b.1 ≠ a ∧ pairKey a b.1 = k then b.2 else 0) + contrib a rest k := by
  by_cases h : b.1 ≠ a ∧ pairKey a b.1 = k <;> simp [contrib, h]

theorem getCount_bump (l : List ((String × String) × Nat))
    (k : String × String) (c : Nat) (x : String × String) :
    getCount (bump l k c) x = getCount l x + (if k = x then c else 0) := by
  induction l with
  | nil =>
    rw [bump, getCount_cons]
    omega
  | cons e rest ih =>
    obtain ⟨q, n⟩ := e
    by_cases h : q = k
    · subst h
      rw [bump, if_pos rfl, getCount_cons, getCount_cons]
      by_cases h2 : q = x
      · rw [if_pos h2, if_pos h2, if_pos h2]
        omega
      · rw [if_neg h2, if_neg h2, if_neg h2]
        omega
    · rw [bump, if_neg h, getCount_cons, getCount_cons, ih]
      omega

theorem processAuthor_cons (acc : List ((String × String) × Nat)) (a : String)
    (b : String × Nat) (rest : List (String × Nat)) :
    processAuthor acc a (b :: rest)
      = processAuthor (if b.1 = a then acc else bump acc (pairKey a b.1) b.2)
          a rest := rfl

theorem getCount_processAuthor (a : String) (buckets : List (String × Nat))
    (k : String × String) :
    ∀ acc, getCount (processAuthor acc a buckets) k
      = getCount acc k + contrib a buckets k := by
  induction buckets with
  | nil => intro acc; simp [processAuthor, contrib]
  | cons b rest ih =>
    intro acc
    rw [processAuthor_cons, contrib_cons, ih]
    by_cases hb : b.1 = a
    · simp [hb]
    · by_cases hk : pairKey a b.1 = k
      · rw [if_neg hb, getCount_bump]
        simp [hb, hk]
        omega
      · rw [if_neg hb, getCount_bump]
        simp [hb, hk]

theorem getCount_peersStrengthMap (authors : List String)
    (rank : String → List (String × Nat)) (k : String × String) :
    getCount (peersStrengthMap authors rank) k = contribSum authors rank k := by
  suffices h : ∀ acc, getCount
      (authors.foldl (fun acc a => processAuthor acc a (rank a)) acc) k
      = getCount acc k + contribSum authors rank k by
    have h0 := h []
    rw [getCount_nil, Nat.zero_add] at h0
    exact h0
  induction authors with
  | nil => intro acc; simp [contribSum]
  | cons a rest ih =>
    intro acc
    rw [List.foldl_cons, ih, getCount_processAuthor]
    simp only [contribSum, List.map_cons, List.sum_cons]
    omega

theorem pairKey_comm (a b : String) : pairKey a b = pairKey b a := by
  unfold pairKey
  split_ifs with h1 h2 h2
  · obtain rfl := le_antisymm h1 h2
    rfl
  · rfl
  · rfl
  · exact absurd (le_of_not_le h1) h2

theorem pairKey_ne (a b : String) (h : a ≠ b) :
    (pairKey a b).1 ≠ (pairKey a b).2 := by
  unfold pairKey
  split_ifs
  · simpa using h
  · simpa using Ne.symm h

theorem pairKey_eq_pairKey (a b A B : String) (hab : a ≠ b) (hAB : A ≠ B) :
    pairKey a b = pairKey A B ↔ (a = A ∧ b = B) ∨ (a = B ∧ b = A) := by
  unfold pairKey
  split_ifs with h1 h2 h2 <;> simp only [Prod.mk.injEq] <;>
    constructor <;> intro h
  · exact Or.inl h
  · rcases h with h | h
    · exact h
    · obtain ⟨rfl, rfl⟩ := h
      exact absurd (le_antisymm h1 h2) hab
  · exact Or.inr ⟨h.1, h.2⟩
  · rcases h with h | h
    · obtain ⟨rfl, rfl⟩ := h
      exact absurd h1 h2
    · exact ⟨h.1, h.2⟩
  · exact Or.inr ⟨h.2, h.1⟩
  · rcases h with h | h
    · obtain ⟨rfl, rfl⟩ := h
      exact absurd h2 h1
    · exact ⟨h.2, h.1⟩
  · exact Or.inl ⟨h.2, h.1⟩
  · rcases h with h | h
    · exact ⟨h.2, h.1⟩
    · obtain ⟨rfl, rfl⟩ := h
      exact absurd (le_of_not_le h1) h2

theorem contrib_head_cond (a : String) (b : String × Nat) (A B : String)
    (hAB : A ≠ B) :
    (if b.1 ≠ a ∧ pairKey a b.1 = pairKey A B then b.2 else 0)
      = if a = A then (if b.1 = B then b.2 else 0)
        else if a = B then (if b.1 = A then b.2 else 0) else 0 := by
  by_cases hba : b.1 = a
  · have hc : ¬(b.1 ≠ a ∧ pairKey a b.1 = pairKey A B) := fun hc => hc.1 hba
    rw [if_neg hc]
    by_cases haA : a = A
    · have hbB : ¬(b.1 = B) := by
        rw [hba, haA]
        exact hAB
      rw [if_pos haA, if_neg hbB]
    · by_cases haB : a = B
      · have hbA : ¬(b.1 = A) := by
          rw [hba, haB]
          exact Ne.symm hAB
        rw [if_neg haA, if_pos haB, if_neg hbA]
      · rw [if_neg haA, if_neg haB]
  · have hiff := pairKey_eq_pairKey a b.1 A B (Ne.symm hba) hAB
    by_cases haA : a = A
    · by_cases hbB : b.1 = B
      · have hc : b.1 ≠ a ∧ pairKey a b.1 = pairKey A B := by
          refine ⟨hba, ?_⟩
          rw [haA, hbB]
        rw [if_pos hc, if_pos haA, if_pos hbB]
      · have hc : ¬(b.1 ≠ a ∧ pairKey a b.1 = pairKey A B) := by
          intro hc
          rcases hiff.mp hc.2 with h | h
          · exact hbB h.2
          · exact hAB (by rw [← haA, h.1])
        rw [if_neg hc, if_pos haA, if_neg hbB]
    · by_cases haB : a = B
      · by_cases hbA : b.1 = A
        · have hc : b.1 ≠ a ∧ pairKey a b.1 = pairKey A B := by
            refine ⟨hba, ?_⟩
            rw [haB, hbA]
            exact pairKey_comm B A
          rw [if_pos hc, if_neg haA, if_pos haB, if_pos hbA]
        · have hc : ¬(b.1 ≠ a ∧ pairKey a b.1 = pairKey A B) := by
            intro hc
            rcases hiff.mp hc.2 with h | h
            · exact haA h.1
            · exact hbA h.2
          rw [if_neg hc, if_neg haA, if_pos haB, if_neg hbA]
      · have hc : ¬(b.1 ≠ a ∧ pairKey a b.1 = pairKey A B) := by
          intro hc
          rcases hiff.mp hc.2 with h | h
          · exact haA h.1
          · exact haB h.1
        rw [if_neg hc, if_neg haA, if_neg haB]

theorem contrib_pairKey (a : String) (bs : List (String × Nat)) (A B : String)
    (hAB : A ≠ B) :
    contrib a bs (pairKey A B)
      = if a = A then bucketCount bs B
        else if a = B then bucketCount bs A else 0 := by
  induction bs with
  | nil =>
    have h0 : contrib a [] (pairKey A B) = 0 := rfl
    rw [h0]
    split_ifs <;> rfl
  | cons b rest ih =>
    rw [contrib_cons, ih, contrib_head_cond a b A B hAB]
    simp only [bucketCount_cons]
    split_ifs <;> omega

theorem dirCount_cons (a : String) (rest : List String)
    (rank : String → List (String × Nat)) (x y : String) :
    dirCount (a :: rest) rank x y
      = if x = a then bucketCount (rank x) y else dirCount rest rank x y := by
  unfold dirCount
  by_cases hxa : x = a
  · simp [hxa, List.mem_cons]
  · simp [hxa, List.mem_cons]

theorem dirCount_eq_zero_of_not_mem (rest : List String)
    (rank : String → List (String × Nat)) (x y : String) (h : x ∉ rest) :
    dirCount rest rank x y = 0 := by
  unfold dirCount
  exact if_neg h

theorem contribSum_pairKey (authors : List String)
    (rank : String → List (String × Nat)) (A B : String) (hAB : A ≠ B)
    (hnd : authors.Nodup) :
    contribSum authors rank (pairKey A B)
      = dirCount authors rank A B + dirCount authors rank B A := by
  induction authors with
  | nil => simp [contribSum, dirCount]
  | cons a rest ih =>
    obtain ⟨ha, hnd'⟩ := List.nodup_cons.mp hnd
    simp only [contribSum] at ih ⊢
    rw [List.map_cons, List.sum_cons, ih hnd',
      contrib_pairKey a (rank a) A B hAB, dirCount_cons, dirCount_cons]
    by_cases haA : a = A
    · subst haA
      rw [if_pos rfl, if_pos rfl, if_neg (Ne.symm hAB),
        dirCount_eq_zero_of_not_mem rest rank a B ha]
      omega
    · by_cases haB : a = B
      · subst haB
        rw [if_neg haA, if_pos rfl, if_neg (fun h => haA h.symm), if_pos rfl,
          dirCount_eq_zero_of_not_mem rest rank a A ha]
        omega
      · rw [if_neg haA, if_neg haB, if_neg (fun h => haA h.symm),
          if_neg (fun h => haB h.symm)]
        omega

theorem keys_bump (l : List ((String × String) × Nat)) (k : String × String)
    (c : Nat) :
    keys (bump l k c) = if k ∈ keys l then keys l else keys l ++ [k] := by
  induction l with
  | nil => simp [bump, keys]
  | cons e rest ih =>
    obtain ⟨q, n⟩ := e
    by_cases h : q = k
    · subst h
      simp [bump, keys]
    · have hkq : ¬(k = q) := fun hk => h hk.symm
      simp only [bump, if_neg h, keys, List.map_cons] at ih ⊢
      rw [ih]
      by_cases h2 : k ∈ List.map (fun e => e.1) rest <;>
        simp [h2, List.mem_cons, hkq]

theorem keysNodup_bump (l : List ((String × String) × Nat))
    (k : String × String) (c : Nat) (h : (keys l).Nodup) :
    (keys (bump l k c)).Nodup := by
  rw [keys_bump]
  by_cases hk : k ∈ keys l
  · rwa [if_pos hk]
  · rw [if_neg hk]
    simp [List.nodup_append, h, hk]

theorem keysNodup_processAuthor (a : String) (buckets : List (String × Nat)) :
    ∀ acc, (keys acc).Nodup → (keys (processAuthor acc a buckets)).Nodup := by
  induction buckets with
  | nil => intro acc h; exact h
  | cons b rest ih =>
    intro acc h
    rw [processAuthor_cons]
    apply ih
    by_cases hb : b.1 = a
    · rwa [if_pos hb]
    · rw [if_neg hb]
      exact keysNodup_bump _ _ _ h

theorem keysNodup_peersStrengthMap (authors : List String)
    (rank : String → List (String × Nat)) :
    (keys (peersStrengthMap authors rank)).Nodup := by
  suffices h : ∀ acc, (keys acc).Nodup →
      (keys (authors.foldl (fun acc a => processAuthor acc a (rank a)) acc)).Nodup by
    exact h [] (by simp [keys])
  induction authors with
  | nil => intro acc h; exact h
  | cons a rest ih =>
    intro acc h
    rw [List.foldl_cons]
    exact ih _ (keysNodup_processAuthor a (rank a) acc h)

theorem goodPairs_bump (l : List ((String × String) × Nat))
    (k : String × String) (c : Nat) (hl : ∀ e ∈ l, e.1.1 ≠ e.1.2)
    (hk : k.1 ≠ k.2) : ∀ e ∈ bump l k c, e.1.1 ≠ e.1.2 := by
  induction l with
  | nil =>
    intro e he
    simp only [bump, List.mem_singleton] at he
    subst he
    exact hk
  | cons f rest ih =>
    obtain ⟨q, n⟩ := f
    intro e he
    simp only [bump] at he
    by_cases h : q = k
    · rw [if_pos h] at he
      rcases List.mem_cons.mp he with he | he
      · subst he
        exact hl (q, n) (List.mem_cons_self _ _)
      · exact hl e (List.mem_cons_of_mem _ he)
    · rw [if_neg h] at he
      rcases List.mem_cons.mp he with he | he
      · subst he
        exact hl (q, n) (List.mem_cons_self _ _)
      · exact ih (fun f hf => hl f (List.mem_cons_of_mem _ hf)) e he

theorem goodPairs_processAuthor (a : String) (buckets : List (String × Nat)) :
    ∀ acc, (∀ e ∈ acc, e.1.1 ≠ e.1.2) →
      ∀ e ∈ processAuthor acc a buckets, e.1.1 ≠ e.1.2 := by
  induction buckets with
  | nil => intro acc h; exact h
  | cons b rest ih =>
    intro acc h
    rw [processAuthor_cons]
    apply ih
    by_cases hb : b.1 = a
    · rwa [if_pos hb]
    · rw [if_neg hb]
      exact goodPairs_bump _ _ _ h (pairKey_ne a b.1 (Ne.symm hb))

theorem goodPairs_peersStrengthMap (authors : List String)
    (rank : String → List (String × Nat)) :
    ∀ e ∈ peersStrengthMap authors rank, e.1.1 ≠ e.1.2 := by
  suffices h : ∀ acc, (∀ e ∈ acc, e.1.1 ≠ e.1.2) →
      ∀ e ∈ authors.foldl (fun acc a => processAuthor acc a (rank a)) acc,
        e.1.1 ≠ e.1.2 by
    exact h [] (by simp)
  induction authors with
  | nil => intro acc h; exact h
  | cons a rest ih =>
    intro acc h
    rw [List.foldl_cons]
    exact ih _ (goodPairs_processAuthor a (rank a) acc h)

theorem getCount_eq_zero_of_not_mem_keys (l : List ((String × String) × Nat))
    (k : String × String) (h : k ∉ keys l) : getCount l k = 0 := by
  induction l with
  | nil => rfl
  | cons e rest ih =>
    obtain ⟨q, n⟩ := e
    rw [getCount_cons]
    have hq : ¬(q = k) := by
      intro hqk
      exact h (by simp [keys, hqk])
    have hrest : k ∉ keys rest := by
      intro hk
      exact h (by simp [keys, List.mem_cons]; exact Or.inr (by simpa [keys] using hk))
    rw [if_neg hq, ih hrest]

theorem getCount_of_mem (l : List ((String × String) × Nat))
    (k : String × String) (w : Nat) (hnd : (keys l).Nodup) (hm : (k, w) ∈ l) :
    getCount l k = w := by
  induction l with
  | nil => simp at hm
  | cons e rest ih =>
    obtain ⟨q, n⟩ := e
    have hnd' := hnd
    rw [keys, List.map_cons] at hnd'
    obtain ⟨hq, hndrest⟩ := List.nodup_cons.mp hnd'
    rcases List.mem_cons.mp hm with he | he
    · have hk : k = q := congrArg Prod.fst he
      have hw : w = n := congrArg Prod.snd he
      subst hk
      subst hw
      rw [getCount_cons]
      have h0 : getCount rest k = 0 :=
        getCount_eq_zero_of_not_mem_keys rest k (by simpa [keys] using hq)
      rw [if_pos rfl, h0]
      omega
    · have hkrest : k ∈ keys rest := by
        have := List.mem_map_of_mem (fun e => e.1) he
        simpa [keys] using this
      have hqk : ¬(q = k) := by
        intro h
        subst h
        exact hq (by simpa [keys] using hkrest)
      rw [getCount_cons, if_neg hqk, ih hndrest he]
      omega

instance : IsTotal ((String × String) × Nat) (fun x y => y.2 ≤ x.2) :=
  ⟨fun a b => le_total b.2 a.2⟩

instance : IsTrans ((String × String) × Nat) (fun x y => y.2 ≤ x.2) :=
  ⟨fun _ _ _ h1 h2 => le_trans h2 h1⟩

/-- Claim C8: `peers_exchange_strength` never emits a self-pair; the
weight recorded under the sorted pair key of (A, B) is the sum of the
directional counts A→B and B→A actually queried, and the key is symmetric
in A and B; and the returned edge list is sorted by descending
accumulated weight.  The `Nodup` hypothesis reflects the backend's terms
aggregation, whose buckets carry distinct keys. -/
theorem C8_peers_exchange_strength_properties (authors : List String)
    (rank : String → List (String × Nat)) (hnd : authors.Nodup) :
    (∀ p w, (p, w) ∈ peers_exchange_strength authors rank → p.1 ≠ p.2) ∧
    (∀ A B w, A ≠ B → (pairKey A B, w) ∈ peers_exchange_strength authors rank →
        w = dirCount authors rank A B + dirCount authors rank B A) ∧
    (∀ A B : String, pairKey A B = pairKey B A) ∧
    List.Sorted (fun x y => y.2 ≤ x.2) (peers_exchange_strength authors rank) := by
  refine ⟨?_, ?_, pairKey_comm, ?_⟩
  · intro p w hm
    rw [peers_exchange_strength, List.mem_insertionSort] at hm
    exact goodPairs_peersStrengthMap authors rank (p, w) hm
  · intro A B w hAB hm
    rw [peers_exchange_strength, List.mem_insertionSort] at hm
    have h1 := getCount_of_mem _ _ _ (keysNodup_peersStrengthMap authors rank) hm
    rw [getCount_peersStrengthMap, contribSum_pairKey authors rank A B hAB hnd] at h1
    exact h1.symm
  · exact List.sorted_insertionSort _ _

/-- Claim C8, witness: the theorem applied to a concrete two-author
backend; both directions alice→bob and bob→alice contribute to the single
undirected edge. -/
theorem C8_peers_exchange_strength_properties_witness :
    (["bob", "alice"] : List String).Nodup ∧
    ((∀ p w, (p, w) ∈ peers_exchange_strength ["bob", "alice"]
          (fun s => if s = "alice" then [("bob", 3)]
                    else if s = "bob" then [("alice", 2), ("bob", 7), ("carol", 5)]
                    else []) → p.1 ≠ p.2) ∧
     (∀ A B w, A ≠ B → (pairKey A B, w) ∈ peers_exchange_strength ["bob", "alice"]
          (fun s => if s = "alice" then [("bob", 3)]
                    else if s = "bob" then [("alice", 2), ("bob", 7), ("carol", 5)]
                    else []) →
        w = dirCount ["bob", "alice"]
              (fun s => if s = "alice" then [("bob", 3)]
                        else if s = "bob" then [("alice", 2), ("bob", 7), ("carol", 5)]
                        else []) A B
            + dirCount ["bob", "alice"]
                (fun s => if s = "alice" then [("bob", 3)]
                          else if s = "bob" then [("alice", 2), ("bob", 7), ("carol", 5)]
                          else []) B A) ∧
     (∀ A B : String, pairKey A B = pairKey B A) ∧
     List.Sorted (fun x y => y.2 ≤ x.2)
       (peers_exchange_strength ["bob", "alice"]
          (fun s => if s = "alice" then [("bob", 3)]
                    else if s = "bob" then [("alice", 2), ("bob", 7), ("carol", 5)]
                    else []))) :=
  ⟨by decide,
   C8_peers_exchange_strength_properties _ _ (by decide)⟩

/-- Claim C6, witness: the amended theorem applied to a concrete filter
with `ec_same_date` truthy and both window bounds supplied. -/
theorem C6_amended_range_bounds_witness :
    (Clause.range "on_created_at" "epoch_millis" (some (some 5)) (some (some 9))
        ∈ generate_filter "org/repo"
            { gte := some 5, lte := some 9, ec_same_date := some true }) ∧
    rangeBoundsOk { gte := some 5, lte := some 9, ec_same_date := some true }
        (Clause.range "on_created_at" "epoch_millis" (some (some 5)) (some (some 9)))
        = true :=
  ⟨by decide, C6_amended_range_bounds "org/repo" _ _ (by decide)⟩

end Monocle
